import Mathlib

/-
Shallow embedding of the chunk codec of the `pngne` repository
(src/chunk.rs and src/chunk_type.rs).

Modelling conventions:
* Rust `u8` values are `Nat`s; where the `u8` type itself guarantees a
  bound, the embedding either masks with `% 256` (exactly where Rust
  performs an `as u8` / `from_be_bytes` conversion) or carries an
  explicit `< 256` hypothesis.
* Rust `u32` results are `Nat`s; `as u32` casts are `% 2 ^ 32`.
* Fallible constructors return `Except Error _`.
* `Chunk::try_from` can panic (`split_at` with an out-of-range index,
  `try_into().unwrap()`), so it returns a `PResult` whose `panic`
  constructor marks exactly the inputs on which the Rust code panics.
* Rust `&str` values are lists of unicode scalar values (`List Char`,
  the same notion as Rust `char`); `str::len` is the UTF-8 byte length.
-/

set_option maxRecDepth 100000

namespace Pngne

/-! ## CRC-32/IEEE (the `crc` crate's `crc32::checksum_ieee`) -/

/-- The reflected CRC-32/IEEE polynomial 0xEDB88320. -/
def crcPoly : Nat := 0xEDB88320

/-- One bit-iteration of the reflected CRC-32 update. -/
def crcStep (c : Nat) : Nat :=
  if c &&& 1 = 1 then (c >>> 1) ^^^ crcPoly else c >>> 1

/-- Iterate `crcStep` `n` times. -/
def crcSteps : Nat → Nat → Nat
  | 0, c => c
  | n + 1, c => crcSteps n (crcStep c)

/-- Absorb one byte into the CRC state (the byte is a `u8`, hence `% 256`). -/
def crcByte (c b : Nat) : Nat := crcSteps 8 (c ^^^ (b % 256))

/-- `crc::crc32::checksum_ieee`: init `0xFFFFFFFF`, reflected, xorout `0xFFFFFFFF`. -/
def checksum_ieee (bytes : List Nat) : Nat :=
  (bytes.foldl crcByte 0xFFFFFFFF) ^^^ 0xFFFFFFFF

/-! ## The error enum

`src/chunk.rs` declares `InputTooSmall(usize)`, `ChunkTypeNotValid`,
`CrcMissMatch(u32, u32)` and `NotOk`; `src/chunk_type.rs` additionally
uses the variants `None`, `ValueNotInRange` and `StrNotCorrctLngth` of
the same `crate::chunk::Error` type. -/

inductive Error where
  | InputTooSmall : Nat → Error
  | ChunkTypeNotValid : Error
  | CrcMissMatch : Nat → Nat → Error
  | NotOk : Error
  | None : Error
  | ValueNotInRange : Error
  | StrNotCorrctLngth : Error
deriving DecidableEq

/-! ## ChunkType (src/chunk_type.rs) -/

/-- `struct ChunkType { chunk_type: Vec<char> }`. -/
structure ChunkType where
  chunk_type : List Char
deriving DecidableEq

/-- The loop body shared by the two `TryFrom<[u8; 4]>` impls and (after the
`as u8` cast) `FromStr`: an ASCII letter is pushed as a `char`, anything
else sets the error flag to `ValueNotInRange`. -/
def pushLetter (acc : List Char × Error) (i : Nat) : List Char × Error :=
  if 65 ≤ i ∧ i ≤ 90 then (acc.1 ++ [Char.ofNat i], acc.2)
  else if 97 ≤ i ∧ i ≤ 122 then (acc.1 ++ [Char.ofNat i], acc.2)
  else (acc.1, Error.ValueNotInRange)

/-- `impl TryFrom<[u8; 4]> for ChunkType` (the `&[u8; 4]` impl has the
identical body).  The four array entries are `u8`s, passed here as the
list of their values. -/
def ChunkType.try_from (value : List Nat) : Except Error ChunkType :=
  let r := value.foldl pushLetter ([], Error.None)
  if r.2 ≠ Error.None then .error r.2 else .ok ⟨r.1⟩

/-- Rust `str::len`: the UTF-8 byte length of the string. -/
def strUtf8Len (s : List Char) : Nat := (s.map Char.utf8Size).sum

/-- `impl FromStr for ChunkType`: `is_error` starts as `StrNotCorrctLngth`
and the function returns it unless `s.len() == 4` (UTF-8 bytes); then each
`char` is cast `as u8` (truncation to the low 8 bits) and validated. -/
def ChunkType.from_str (s : List Char) : Except Error ChunkType :=
  if strUtf8Len s = 4 then
    let r := s.foldl (fun acc ch => pushLetter acc (ch.toNat % 256)) ([], Error.None)
    if r.2 ≠ Error.None then .error r.2 else .ok ⟨r.1⟩
  else .error Error.StrNotCorrctLngth

/-- The `Vec<u8>` built inside `ChunkType::bytes` before the `[u8; 4]`
conversion: each stored `char` cast `as u8`. -/
def ChunkType.bytesList (ct : ChunkType) : List Nat :=
  ct.chunk_type.map (fun c => c.toNat % 256)

/-- `ChunkType::bytes`: collects the chars as `u8`s and `.try_into().unwrap()`s
into a `[u8; 4]` — the unwrap panics (modelled as `none`) unless the vector
has exactly 4 entries. -/
def ChunkType.bytes (ct : ChunkType) : Option (List Nat) :=
  if (ChunkType.bytesList ct).length = 4 then some (ChunkType.bytesList ct) else none

/-- `ChunkType::is_valid` (`none` = the inner `bytes()` panicked). -/
def ChunkType.is_valid (ct : ChunkType) : Option Bool :=
  ct.bytes.map (fun bytes => if bytes.getD 2 0 &&& 32 = 0 then true else false)

/-- `ChunkType::is_critical`. -/
def ChunkType.is_critical (ct : ChunkType) : Option Bool :=
  ct.bytes.map (fun bytes => if bytes.getD 0 0 &&& 32 > 0 then false else true)

/-- `ChunkType::is_public`. -/
def ChunkType.is_public (ct : ChunkType) : Option Bool :=
  ct.bytes.map (fun bytes => if bytes.getD 1 0 &&& 32 = 0 then true else false)

/-- `ChunkType::is_reserved_bit_valid`. -/
def ChunkType.is_reserved_bit_valid (ct : ChunkType) : Option Bool :=
  ct.bytes.map (fun bytes => if bytes.getD 2 0 &&& 32 = 0 then true else false)

/-- `ChunkType::is_safe_to_copy`. -/
def ChunkType.is_safe_to_copy (ct : ChunkType) : Option Bool :=
  ct.bytes.map (fun bytes => if bytes.getD 3 0 &&& 32 = 0 then false else true)

/-! ## Chunk (src/chunk.rs) -/

/-- `struct Chunk { length: u32, chunk_type: ChunkType, data: Vec<u8>, crc: u32 }`. -/
structure Chunk where
  length : Nat
  chunk_type : ChunkType
  data : List Nat
  crc : Nat
deriving DecidableEq

/-- Result of a Rust computation that can also panic. -/
inductive PResult (α : Type) where
  | ok : α → PResult α
  | err : Error → PResult α
  | panic : PResult α
deriving DecidableEq

/-- `u32::from_be_bytes` on the first four entries of a byte list; the
arguments are `u8`s, which the embedding enforces with `% 256`. -/
def u32_from_be (b : List Nat) : Nat :=
  ((b.getD 0 0 % 256 * 256 + b.getD 1 0 % 256) * 256 + b.getD 2 0 % 256) * 256
    + b.getD 3 0 % 256

/-- `impl TryFrom<&[u8]> for Chunk`.  `split_at`, which panics when its
index exceeds the slice length, is modelled by `take`/`drop` guarded by an
explicit `panic` case; the two `try_into()` conversions of 4-byte slices
to `[u8; 4]` always succeed on this path (their `Error::NotOk` arms are
dead code) and are inlined into `u32_from_be`. -/
def Chunk.try_from (value : List Nat) : PResult Chunk :=
  if value.length < 16 then .err (Error.InputTooSmall value.length) else
  let data_length := u32_from_be (value.take 4)
  let v1 := value.drop 4
  match ChunkType.try_from (v1.take 4) with
  | .error _ => .err Error.ChunkTypeNotValid
  | .ok chunk_type =>
    let v2 := v1.drop 4
    if v2.length < data_length then .panic else
    let data := v2.take data_length
    let v3 := v2.drop data_length
    if v3.length < 4 then .panic else
    match ChunkType.bytes chunk_type with
    | none => .panic
    | some tb =>
      let crc := checksum_ieee (tb ++ data)
      let true_crc := u32_from_be (v3.take 4)
      if crc ≠ true_crc then .err (Error.CrcMissMatch crc true_crc)
      else .ok { length := data_length % 2 ^ 32, chunk_type := chunk_type,
                 data := data, crc := crc }

/-- `Chunk::new`: computes the CRC over `type_bytes ++ data` and stores
`data.len() as u32`.  The inner `chunk_type.bytes()` unwrap panics when the
chunk type does not hold exactly 4 chars. -/
def Chunk.new (chunk_type : ChunkType) (data : List Nat) : PResult Chunk :=
  match ChunkType.bytes chunk_type with
  | none => .panic
  | some tb =>
    .ok { length := data.length % 2 ^ 32, chunk_type := chunk_type,
          data := data, crc := checksum_ieee (tb ++ data) }

/-- `Chunk::as_bytes`: returns `self.data.clone()` — only the payload. -/
def Chunk.as_bytes (self : Chunk) : List Nat := self.data

/-! ## Observers used to state the parsing claims -/

/-- The declared payload length: the first 4 bytes, big-endian. -/
def declaredLen (buf : List Nat) : Nat := u32_from_be (buf.take 4)

/-- The 4 type-tag bytes (offsets 4..8). -/
def typeField (buf : List Nat) : List Nat := (buf.drop 4).take 4

/-- The payload: `declaredLen` bytes from offset 8. -/
def payloadField (buf : List Nat) : List Nat := (buf.drop 8).take (declaredLen buf)

/-- The declared CRC: the 4 bytes after the payload, big-endian. -/
def declaredCrc (buf : List Nat) : Nat :=
  u32_from_be (((buf.drop 8).drop (declaredLen buf)).take 4)

/-- Stored length of a possibly-panicking chunk construction (0 when no
chunk was produced); used to state counterexamples without binders. -/
def PResult.lengthD : PResult Chunk → Nat
  | .ok c => c.length
  | _ => 0

/-- `as_bytes` of a possibly-panicking chunk construction. -/
def PResult.asBytesD : PResult Chunk → List Nat
  | .ok c => c.as_bytes
  | _ => []

/-- Decidable form of the two ASCII-letter ranges of the validators. -/
def isLetterByte (i : Nat) : Bool := (65 ≤ i && i ≤ 90) || (97 ≤ i && i ≤ 122)

/-- The chunk type "RuSt" of the repository's tests. -/
def rustCT : ChunkType := ⟨['R', 'u', 'S', 't']⟩

/-- A payload of 2^32 bytes (realizable as a >4 GiB `Vec<u8>` on a 64-bit
host), on which `data.len() as u32` wraps to 0. -/
def bigData : List Nat := List.replicate (2 ^ 32) 0

/-- U+0141, the 2-byte UTF-8 character Ł, whose `as u8` truncation is 65. -/
def lStroke : Char := Char.ofNat 321

/-- U+0100, a 2-byte UTF-8 character that is not an ASCII letter. -/
def aMacron : Char := Char.ofNat 256

/-- A minimal 16-byte record: zero declared length, type "RuSt", declared
CRC 3565422908 = CRC-32("RuSt") at offsets 8..12, and 4 trailing bytes the
parser never reads. -/
def minRecord : List Nat := [0, 0, 0, 0, 82, 117, 83, 116, 212, 132, 9, 60, 0, 0, 0, 0]

/-- `minRecord` with the declared CRC field replaced by 1. -/
def badCrcRecord : List Nat := [0, 0, 0, 0, 82, 117, 83, 116, 0, 0, 0, 1, 0, 0, 0, 0]

end Pngne

deriving instance DecidableEq for Except

namespace Pngne

/-! ## ChunkType validator characterization -/

theorem charToNat_ofNat {n : Nat} (h : n < 55296) : (Char.ofNat n).toNat = n := by
  have hv : n.isValidChar := Or.inl h
  rw [Char.ofNat, dif_pos hv]
  rfl

theorem pushLetter_eq (acc : List Char × Error) (i : Nat) :
    pushLetter acc i = if isLetterByte i then (acc.1 ++ [Char.ofNat i], acc.2)
      else (acc.1, Error.ValueNotInRange) := by
  unfold pushLetter isLetterByte
  split_ifs with h1 h2 h3 <;> simp_all
  omega

theorem foldl_pushLetter : ∀ (value : List Nat) (cs : List Char) (e : Error),
    value.foldl pushLetter (cs, e)
      = (cs ++ (value.filter isLetterByte).map Char.ofNat,
         if value.all isLetterByte then e else Error.ValueNotInRange)
  | [], cs, e => by simp
  | i :: rest, cs, e => by
    by_cases h : isLetterByte i
    · rw [List.foldl_cons, pushLetter_eq, if_pos h, foldl_pushLetter rest]
      simp [h, List.filter_cons, List.all_cons]
    · rw [List.foldl_cons, pushLetter_eq, if_neg h, foldl_pushLetter rest]
      simp [h, List.filter_cons, List.all_cons]

theorem ChunkType.try_from_ok_iff (value : List Nat) (ct : ChunkType) :
    ChunkType.try_from value = .ok ct
      ↔ value.all isLetterByte = true ∧ ct = ⟨value.map Char.ofNat⟩ := by
  unfold ChunkType.try_from
  rw [foldl_pushLetter]
  by_cases h : value.all isLetterByte
  · simp [h, List.filter_eq_self.mpr (fun x hx => (List.all_eq_true.mp h) x hx), eq_comm]
  · simp [h]

theorem letter_lt {i : Nat} (h : isLetterByte i = true) : i < 256 := by
  unfold isLetterByte at h
  simp at h
  omega

theorem bytesList_map_ofNat (value : List Nat) (h : value.all isLetterByte = true) :
    ChunkType.bytesList ⟨value.map Char.ofNat⟩ = value := by
  unfold ChunkType.bytesList
  rw [List.map_map]
  conv_rhs => rw [← List.map_id value]
  refine List.map_congr_left (fun i hi => ?_)
  have hl : isLetterByte i = true := List.all_eq_true.mp h i hi
  have hlt : i < 256 := letter_lt hl
  simp [Function.comp, charToNat_ofNat (Nat.lt_trans hlt (by norm_num)),
    Nat.mod_eq_of_lt hlt]

theorem bytes_of_try_from {value : List Nat} {ct : ChunkType}
    (h4 : value.length = 4) (h : ChunkType.try_from value = .ok ct) :
    ChunkType.bytesList ct = value ∧ ChunkType.bytes ct = some value := by
  obtain ⟨hall, hct⟩ := (ChunkType.try_from_ok_iff value ct).mp h
  subst hct
  have hb : ChunkType.bytesList ⟨value.map Char.ofNat⟩ = value :=
    bytesList_map_ofNat value hall
  refine ⟨hb, ?_⟩
  unfold ChunkType.bytes
  rw [hb, if_pos h4]

theorem from_str_eq (s : List Char) :
    ChunkType.from_str s =
      if strUtf8Len s = 4 then
        if (s.map (fun ch => ch.toNat % 256)).all isLetterByte then
          .ok ⟨((s.map (fun ch => ch.toNat % 256)).map Char.ofNat)⟩
        else .error Error.ValueNotInRange
      else .error Error.StrNotCorrctLngth := by
  have hfold : List.foldl (fun acc ch => pushLetter acc (ch.toNat % 256))
        (([] : List Char), Error.None) s
      = List.foldl pushLetter ([], Error.None) (s.map (fun ch => ch.toNat % 256)) :=
    (List.foldl_map _ _ _ _).symm
  simp only [ChunkType.from_str, hfold, foldl_pushLetter]
  by_cases h4 : strUtf8Len s = 4
  · by_cases hall : (s.map (fun ch => ch.toNat % 256)).all isLetterByte
    · simp [h4, hall,
        List.filter_eq_self.mpr (fun x hx => List.all_eq_true.mp hall x hx)]
    · simp [h4, hall]
  · simp [h4]

/-! ## Parse anatomy: `Chunk::try_from` on the non-panicking path -/

theorem typeField_length {buf : List Nat} (h16 : 16 ≤ buf.length) :
    (typeField buf).length = 4 := by
  unfold typeField
  simp
  omega

theorem try_from_anatomy (buf : List Nat) (ct : ChunkType)
    (h16 : ¬ buf.length < 16)
    (hct : ChunkType.try_from (typeField buf) = .ok ct)
    (hdl : declaredLen buf + 12 ≤ buf.length) :
    Chunk.try_from buf =
      if checksum_ieee (ChunkType.bytesList ct ++ payloadField buf) ≠ declaredCrc buf then
        .err (Error.CrcMissMatch
          (checksum_ieee (ChunkType.bytesList ct ++ payloadField buf)) (declaredCrc buf))
      else
        .ok { length := declaredLen buf % 2 ^ 32, chunk_type := ct,
              data := payloadField buf,
              crc := checksum_ieee (ChunkType.bytesList ct ++ payloadField buf) } := by
  obtain ⟨hbl, hbytes⟩ := bytes_of_try_from (typeField_length (by omega)) hct
  simp only [declaredLen, typeField, payloadField, declaredCrc] at hct hbl hbytes hdl ⊢
  simp only [Chunk.try_from]
  rw [if_neg h16, hct]
  simp only [List.drop_drop, Nat.reduceAdd]
  rw [if_neg (by simp only [List.length_drop]; omega)]
  rw [if_neg (by simp only [List.length_drop]; omega)]
  rw [hbytes, hbl]

theorem try_from_ok_inv {buf : List Nat} {c : Chunk} (h : Chunk.try_from buf = .ok c) :
    ¬ buf.length < 16 ∧ declaredLen buf + 12 ≤ buf.length ∧
    ∃ ct, ChunkType.try_from (typeField buf) = .ok ct ∧
      checksum_ieee (ChunkType.bytesList ct ++ payloadField buf) = declaredCrc buf ∧
      c = { length := declaredLen buf % 2 ^ 32, chunk_type := ct,
            data := payloadField buf,
            crc := checksum_ieee (ChunkType.bytesList ct ++ payloadField buf) } := by
  simp only [Chunk.try_from, List.drop_drop, Nat.reduceAdd] at h
  split at h
  · exact absurd h (by simp)
  next h16 =>
  split at h
  · exact absurd h (by simp)
  next ct hct =>
  split at h
  · exact absurd h (by simp)
  next hpanic1 =>
  split at h
  · exact absurd h (by simp)
  next hpanic2 =>
  split at h
  · exact absurd h (by simp)
  next tb hbytes =>
  split at h
  · exact absurd h (by simp)
  next hcrc =>
  simp only [List.length_drop] at hpanic1 hpanic2
  have htb : tb = ChunkType.bytesList ct := by
    unfold ChunkType.bytes at hbytes
    split at hbytes
    · next hl => exact (Option.some.injEq _ _).mp hbytes |>.symm
    · exact absurd hbytes (by simp)
  subst htb
  rw [not_ne_iff] at hcrc
  simp only [PResult.ok.injEq] at h
  refine ⟨h16, by unfold declaredLen at *; omega, ct, hct, ?_, ?_⟩
  · simp only [declaredLen, payloadField, declaredCrc, List.drop_drop]
    exact hcrc
  · simp only [declaredLen, payloadField, List.drop_drop]
    exact h.symm

/-! ## CRC-32 algebra: the update is injective on 32-bit states, so a
single differing byte always changes the checksum -/

theorem crcStep_lt {c : Nat} (h : c < 2 ^ 32) : crcStep c < 2 ^ 32 := by
  unfold crcStep
  have h1 : c >>> 1 < 2 ^ 32 := by
    rw [Nat.shiftRight_one]
    omega
  split
  · exact Nat.xor_lt_two_pow h1 (by norm_num [crcPoly])
  · exact h1

theorem crcStep_inj {c1 c2 : Nat} (h1 : c1 < 2 ^ 32) (h2 : c2 < 2 ^ 32)
    (he : crcStep c1 = crcStep c2) : c1 = c2 := by
  unfold crcStep at he
  rw [Nat.and_one_is_mod, Nat.and_one_is_mod, Nat.shiftRight_one, Nat.shiftRight_one] at he
  have hd1 : c1 / 2 < 2 ^ 31 := by omega
  have hd2 : c2 / 2 < 2 ^ 31 := by omega
  have hpoly : crcPoly.testBit 31 = true := by decide
  by_cases p1 : c1 % 2 = 1 <;> by_cases p2 : c2 % 2 = 1
  · rw [if_pos p1, if_pos p2] at he
    have : c1 / 2 = c2 / 2 := by
      have := congrArg (fun x => x ^^^ crcPoly) he
      simpa [Nat.xor_assoc] using this
    omega
  · rw [if_pos p1, if_neg p2] at he
    have hb := congrArg (fun x => x.testBit 31) he
    simp [Nat.testBit_xor, hpoly, Nat.testBit_lt_two_pow hd1,
      Nat.testBit_lt_two_pow hd2] at hb
  · rw [if_neg p1, if_pos p2] at he
    have hb := congrArg (fun x => x.testBit 31) he
    simp [Nat.testBit_xor, hpoly, Nat.testBit_lt_two_pow hd1,
      Nat.testBit_lt_two_pow hd2] at hb
  · rw [if_neg p1, if_neg p2] at he
    omega

theorem crcSteps_lt {c : Nat} (n : Nat) (h : c < 2 ^ 32) : crcSteps n c < 2 ^ 32 := by
  induction n generalizing c with
  | zero => exact h
  | succ n ih => exact ih (crcStep_lt h)

theorem crcSteps_inj {c1 c2 : Nat} (n : Nat) (h1 : c1 < 2 ^ 32) (h2 : c2 < 2 ^ 32)
    (he : crcSteps n c1 = crcSteps n c2) : c1 = c2 := by
  induction n generalizing c1 c2 with
  | zero => exact he
  | succ n ih => exact crcStep_inj h1 h2 (ih (crcStep_lt h1) (crcStep_lt h2) he)

theorem crcByte_lt {c : Nat} (b : Nat) (h : c < 2 ^ 32) : crcByte c b < 2 ^ 32 :=
  crcSteps_lt 8 (Nat.xor_lt_two_pow h (by omega))

theorem crcByte_inj_state {c1 c2 : Nat} (b : Nat) (h1 : c1 < 2 ^ 32) (h2 : c2 < 2 ^ 32)
    (he : crcByte c1 b = crcByte c2 b) : c1 = c2 := by
  have hb : b % 256 < 2 ^ 32 := by omega
  have := crcSteps_inj 8 (Nat.xor_lt_two_pow h1 hb) (Nat.xor_lt_two_pow h2 hb) he
  have := congrArg (fun x => x ^^^ (b % 256)) this
  simpa [Nat.xor_assoc] using this

theorem crcByte_inj_byte {b b' : Nat} (c : Nat) (hc : c < 2 ^ 32)
    (hb : b < 256) (hb' : b' < 256) (hne : b ≠ b') : crcByte c b ≠ crcByte c b' := by
  intro he
  have h1 : c ^^^ b % 256 < 2 ^ 32 := Nat.xor_lt_two_pow hc (by omega)
  have h2 : c ^^^ b' % 256 < 2 ^ 32 := Nat.xor_lt_two_pow hc (by omega)
  have := crcSteps_inj 8 h1 h2 he
  have := congrArg (fun x => c ^^^ x) this
  simp only [← Nat.xor_assoc, Nat.xor_self, Nat.zero_xor] at this
  rw [Nat.mod_eq_of_lt hb, Nat.mod_eq_of_lt hb'] at this
  exact hne this

theorem foldl_crcByte_lt {c : Nat} (l : List Nat) (h : c < 2 ^ 32) :
    l.foldl crcByte c < 2 ^ 32 := by
  induction l generalizing c with
  | nil => exact h
  | cons b rest ih => exact ih (crcByte_lt b h)

theorem foldl_crcByte_ne {c1 c2 : Nat} (l : List Nat) (h1 : c1 < 2 ^ 32)
    (h2 : c2 < 2 ^ 32) (hne : c1 ≠ c2) : l.foldl crcByte c1 ≠ l.foldl crcByte c2 := by
  induction l generalizing c1 c2 with
  | nil => exact hne
  | cons b rest ih =>
    exact ih (crcByte_lt b h1) (crcByte_lt b h2)
      (fun he => hne (crcByte_inj_state b h1 h2 he))

theorem checksum_ne_of_byte_diff (pre suf : List Nat) {b b' : Nat}
    (hb : b < 256) (hb' : b' < 256) (hne : b ≠ b') :
    checksum_ieee (pre ++ b :: suf) ≠ checksum_ieee (pre ++ b' :: suf) := by
  unfold checksum_ieee
  intro he
  have hcancel := congrArg (fun x => x ^^^ 0xFFFFFFFF) he
  simp only [Nat.xor_cancel_right] at hcancel
  rw [List.foldl_append, List.foldl_append, List.foldl_cons, List.foldl_cons] at hcancel
  have hs : pre.foldl crcByte 0xFFFFFFFF < 2 ^ 32 := foldl_crcByte_lt pre (by norm_num)
  exact foldl_crcByte_ne suf (crcByte_lt b hs) (crcByte_lt b' hs)
    (crcByte_inj_byte _ hs hb hb' hne) hcancel

/-! ## Bit flips and base-256 digit arithmetic -/

theorem flip_ne (x k : Nat) : x ^^^ 2 ^ k ≠ x := by
  intro h
  have := congrArg (fun y => x ^^^ y) h.symm
  simp only [← Nat.xor_assoc, Nat.xor_self, Nat.zero_xor] at this
  exact absurd this.symm (Nat.pos_iff_ne_zero.mp (Nat.two_pow_pos k))

theorem flip_lt {x k : Nat} (hx : x < 256) (hk : k < 8) : x ^^^ 2 ^ k < 256 := by
  have hx8 : x < 2 ^ 8 := by omega
  have h2 : (2 : Nat) ^ k < 2 ^ 8 := Nat.pow_lt_pow_right (by norm_num) hk
  have h3 := Nat.xor_lt_two_pow hx8 h2
  omega

theorem take_set_of_le {α : Type} {l : List α} {m n : Nat} {a : α} (h : n ≤ m) :
    (l.set m a).take n = l.take n := by
  rw [List.set_take, List.set_eq_of_length_le]
  exact le_trans (by simp) h

theorem u32_from_be_lt (b : List Nat) : u32_from_be b < 2 ^ 32 := by
  unfold u32_from_be
  omega

theorem exists_four {l : List Nat} (h : l.length = 4) :
    ∃ a0 a1 a2 a3, l = [a0, a1, a2, a3] := by
  match l, h with
  | [a0, a1, a2, a3], _ => exact ⟨a0, a1, a2, a3, rfl⟩

theorem u32_from_be_set_ne (l : List Nat) (j : Nat) (hj : j < 4) (hlen : l.length = 4)
    (hall : ∀ x ∈ l, x < 256) {b' : Nat} (hb' : b' < 256) (hne : b' ≠ l.getD j 0) :
    u32_from_be (l.set j b') ≠ u32_from_be l := by
  obtain ⟨a0, a1, a2, a3, rfl⟩ := exists_four hlen
  have h0 : a0 < 256 := hall a0 (by simp)
  have h1 : a1 < 256 := hall a1 (by simp)
  have h2 : a2 < 256 := hall a2 (by simp)
  have h3 : a3 < 256 := hall a3 (by simp)
  interval_cases j <;>
    simp [u32_from_be, List.set, List.getD] at hne ⊢ <;>
    omega

/-! ## Claim theorems -/

/-- C1: the claim says `Chunk::try_from` never panics and bounds-checks the
declared length; the code does not: on the 16-byte buffer declaring a 9-byte
payload (only 8 bytes remain after the type field), `split_at(9)` is called
on an 8-byte slice, which panics. -/
theorem C1_try_from_panics :
    Chunk.try_from [0, 0, 0, 9, 82, 117, 83, 116, 0, 0, 0, 0, 0, 0, 0, 0]
      = .panic := by decide

/-- C2: the claim says serialization yields the full on-wire record and
round-trips through parsing; the code's `Chunk::as_bytes` returns only the
payload clone, so reparsing the serialization of a freshly built chunk
fails with `InputTooSmall` instead of round-tripping. -/
theorem C2_as_bytes_not_wire :
    PResult.asBytesD (Chunk.new rustCT [1, 2, 3]) = [1, 2, 3] ∧
    Chunk.try_from (PResult.asBytesD (Chunk.new rustCT [1, 2, 3]))
      = .err (Error.InputTooSmall 3) := by decide

/-- C3 counterexample: the stored `length` is `data.len() as u32`, so for a
payload of 2^32 bytes the stored length is 0, not the byte count claimed. -/
theorem C3_counterexample :
    PResult.lengthD (Chunk.new rustCT bigData) ≠ bigData.length := by
  have hb : ChunkType.bytes rustCT = some [82, 117, 83, 116] := by decide
  have h1 : Chunk.new rustCT bigData
      = .ok { length := bigData.length % 2 ^ 32, chunk_type := rustCT, data := bigData,
              crc := checksum_ieee ([82, 117, 83, 116] ++ bigData) } := by
    unfold Chunk.new
    rw [hb]
  have hlen : bigData.length = 2 ^ 32 := by
    rw [bigData, List.length_replicate]
  rw [h1, PResult.lengthD, hlen, Nat.mod_self]
  norm_num

/-- C3 (amended): for every well-formed ChunkType (4 stored chars) and every
payload of fewer than 2^32 bytes, `Chunk::new` succeeds with
`crc = CRC-32/IEEE(type_bytes ++ data)` and `length = data.len()` (in general
the stored length is `data.len() mod 2^32`); and every chunk parsed from
bytes satisfies `crc = CRC-32/IEEE(type_bytes ++ data)` and
`length = data.len()`. -/
theorem C3_invariants :
    (∀ (ct : ChunkType) (data : List Nat), ct.chunk_type.length = 4 →
      data.length < 2 ^ 32 →
      Chunk.new ct data
        = .ok { length := data.length, chunk_type := ct, data := data,
                crc := checksum_ieee (ChunkType.bytesList ct ++ data) })
    ∧ (∀ (buf : List Nat) (c : Chunk), Chunk.try_from buf = .ok c →
        c.crc = checksum_ieee (ChunkType.bytesList c.chunk_type ++ c.data)
        ∧ c.length = c.data.length) := by
  constructor
  · intro ct data h4 hlen
    have hb : ChunkType.bytes ct = some (ChunkType.bytesList ct) := by
      unfold ChunkType.bytes
      rw [if_pos (by simp [ChunkType.bytesList, h4])]
    simp only [Chunk.new, hb]
    rw [Nat.mod_eq_of_lt hlen]
  · intro buf c h
    obtain ⟨h16, hdl, ct, hct, hcrc, hc⟩ := try_from_ok_inv h
    subst hc
    refine ⟨rfl, ?_⟩
    have hlt := u32_from_be_lt (buf.take 4)
    simp only [payloadField, declaredLen, List.length_take, List.length_drop] at hdl ⊢
    rw [Nat.mod_eq_of_lt hlt]
    omega

/-- C3 witness: `Chunk::new` on "RuSt" with payload `[7]`. -/
theorem C3_witness :
    Chunk.new rustCT [7]
      = .ok { length := 1, chunk_type := rustCT, data := [7],
              crc := checksum_ieee (ChunkType.bytesList rustCT ++ [7]) } :=
  C3_invariants.1 rustCT [7] (by decide) (by decide)

/-- C5: the claim says every successfully constructed ChunkType holds 4
ASCII-letter chars in original case; `from_str` on "ŁŁ" (two chars, four
UTF-8 bytes) passes the byte-length check, truncates each char `as u8` to
65, and succeeds with the 2-char ChunkType `['A','A']` — whose `bytes()`
then panics on the `[u8; 4]` unwrap. -/
theorem C5_from_str_two_chars :
    ChunkType.from_str [lStroke, lStroke] = .ok ⟨['A', 'A']⟩ ∧
    (ChunkType.mk ['A', 'A']).chunk_type.length = 2 ∧
    (ChunkType.mk ['A', 'A']).bytes = none := by decide

/-- C6 counterexample: "abcĀ" has exactly 4 characters, one of which is not
an ASCII letter, so the claim demands `ValueNotInRange`; but its UTF-8
length is 5, so the code fails with `StrNotCorrctLngth` (WrongLength). -/
theorem C6_counterexample :
    ([ 'a', 'b', 'c', aMacron ] : List Char).length = 4 ∧
    ChunkType.from_str ['a', 'b', 'c', aMacron] = .error Error.StrNotCorrctLngth ∧
    ChunkType.from_str ['a', 'b', 'c', aMacron] ≠ .error Error.ValueNotInRange := by
  decide

/-- C6 (amended): `from_str` fails with `WrongLength` for every string whose
UTF-8 byte length is not exactly 4, before inspecting any character; when
the byte length is 4, it fails with `ValueNotInRange` exactly when some
character's low-8-bit truncation is not an ASCII letter. -/
theorem C6_from_str_errors :
    (∀ s, strUtf8Len s ≠ 4 → ChunkType.from_str s = .error Error.StrNotCorrctLngth)
    ∧ (∀ s, strUtf8Len s = 4 →
        (ChunkType.from_str s = .error Error.ValueNotInRange
          ↔ ¬ ((s.map (fun ch => ch.toNat % 256)).all isLetterByte = true))) := by
  constructor
  · intro s h
    rw [from_str_eq, if_neg h]
  · intro s h4
    rw [from_str_eq, if_pos h4]
    by_cases hall : (s.map (fun ch => ch.toNat % 256)).all isLetterByte
    · simp [hall]
    · simp [hall]

/-- C6 witness: "Rus" fails with `StrNotCorrctLngth`; "Ru1t" fails with
`ValueNotInRange`. -/
theorem C6_witness :
    ChunkType.from_str ['R', 'u', 's'] = .error Error.StrNotCorrctLngth ∧
    (ChunkType.from_str ['R', 'u', '1', 't'] = .error Error.ValueNotInRange
      ↔ ¬ (((['R', 'u', '1', 't'] : List Char).map (fun ch => ch.toNat % 256)).all
            isLetterByte = true)) :=
  ⟨C6_from_str_errors.1 ['R', 'u', 's'] (by decide),
   C6_from_str_errors.2 ['R', 'u', '1', 't'] (by decide)⟩

/-- C7: for every ChunkType successfully constructed from 4 bytes,
`is_critical`/`is_public`/`is_reserved_bit_valid` are true iff bit 5 (0x20)
of byte 0/1/2 is clear, `is_safe_to_copy` is true iff bit 5 of byte 3 is
set, and `is_valid` coincides with `is_reserved_bit_valid`. -/
theorem C7_bit_semantics :
    ∀ (value : List Nat) (ct : ChunkType), value.length = 4 →
    ChunkType.try_from value = .ok ct →
    ChunkType.bytes ct = some value ∧
    (ct.is_critical = some true ↔ value.getD 0 0 &&& 32 = 0) ∧
    (ct.is_public = some true ↔ value.getD 1 0 &&& 32 = 0) ∧
    (ct.is_reserved_bit_valid = some true ↔ value.getD 2 0 &&& 32 = 0) ∧
    (ct.is_safe_to_copy = some true ↔ value.getD 3 0 &&& 32 ≠ 0) ∧
    ct.is_valid = ct.is_reserved_bit_valid := by
  intro value ct h4 h
  obtain ⟨hbl, hbytes⟩ := bytes_of_try_from h4 h
  have hcrit : ct.is_critical
      = some (if value.getD 0 0 &&& 32 > 0 then false else true) := by
    unfold ChunkType.is_critical
    rw [hbytes]
    rfl
  have hpub : ct.is_public
      = some (if value.getD 1 0 &&& 32 = 0 then true else false) := by
    unfold ChunkType.is_public
    rw [hbytes]
    rfl
  have hres : ct.is_reserved_bit_valid
      = some (if value.getD 2 0 &&& 32 = 0 then true else false) := by
    unfold ChunkType.is_reserved_bit_valid
    rw [hbytes]
    rfl
  have hsafe : ct.is_safe_to_copy
      = some (if value.getD 3 0 &&& 32 = 0 then false else true) := by
    unfold ChunkType.is_safe_to_copy
    rw [hbytes]
    rfl
  refine ⟨hbytes, ?_, ?_, ?_, ?_, ?_⟩
  · rw [hcrit, Option.some.injEq]
    by_cases hpos : value.getD 0 0 &&& 32 > 0
    · simp [hpos, Nat.pos_iff_ne_zero.mp hpos]
    · simp [hpos, Nat.eq_zero_of_not_pos hpos]
  · rw [hpub, Option.some.injEq]
    by_cases hz : value.getD 1 0 &&& 32 = 0
    · simp [hz]
    · simp [hz]
  · rw [hres, Option.some.injEq]
    by_cases hz : value.getD 2 0 &&& 32 = 0
    · simp [hz]
    · simp [hz]
  · rw [hsafe, Option.some.injEq]
    by_cases hz : value.getD 3 0 &&& 32 = 0
    · simp [hz]
    · simp [hz]
  · simp only [ChunkType.is_valid, ChunkType.is_reserved_bit_valid]

/-- C7 witness: the bit semantics evaluated on "RuSt". -/
theorem C7_witness :
    ChunkType.bytes rustCT = some [82, 117, 83, 116] ∧
    (rustCT.is_critical = some true ↔ ([82, 117, 83, 116] : List Nat).getD 0 0 &&& 32 = 0) ∧
    (rustCT.is_public = some true ↔ ([82, 117, 83, 116] : List Nat).getD 1 0 &&& 32 = 0) ∧
    (rustCT.is_reserved_bit_valid = some true
      ↔ ([82, 117, 83, 116] : List Nat).getD 2 0 &&& 32 = 0) ∧
    (rustCT.is_safe_to_copy = some true
      ↔ ([82, 117, 83, 116] : List Nat).getD 3 0 &&& 32 ≠ 0) ∧
    rustCT.is_valid = rustCT.is_reserved_bit_valid :=
  C7_bit_semantics [82, 117, 83, 116] rustCT (by decide) (by decide)

/-- C4: on a buffer that reaches the CRC comparison (long enough, valid
type tag, declared length within bounds), parsing fails with
`CrcMissMatch(computed, declared)` — computed first, declared second —
exactly when the recomputed CRC differs from the declared one; no chunk is
produced on failure, and on success the stored crc equals the declared
one. -/
theorem C4_crc_mismatch :
    ∀ (buf : List Nat) (ct : ChunkType), 16 ≤ buf.length →
    ChunkType.try_from (typeField buf) = .ok ct →
    declaredLen buf + 12 ≤ buf.length →
    ((Chunk.try_from buf
        = .err (Error.CrcMissMatch
            (checksum_ieee (ChunkType.bytesList ct ++ payloadField buf))
            (declaredCrc buf))
      ↔ checksum_ieee (ChunkType.bytesList ct ++ payloadField buf) ≠ declaredCrc buf)
    ∧ (∀ cm dm, Chunk.try_from buf = .err (Error.CrcMissMatch cm dm) →
        cm = checksum_ieee (ChunkType.bytesList ct ++ payloadField buf)
          ∧ dm = declaredCrc buf)
    ∧ (∀ ch, Chunk.try_from buf = .ok ch → ch.crc = declaredCrc buf)) := by
  intro buf ct h16 hct hdl
  rw [try_from_anatomy buf ct (by omega) hct hdl]
  by_cases hne : checksum_ieee (ChunkType.bytesList ct ++ payloadField buf)
      ≠ declaredCrc buf
  · rw [if_pos hne]
    refine ⟨by simp [hne], ?_, ?_⟩
    · intro cm dm h
      simp only [PResult.err.injEq, Error.CrcMissMatch.injEq] at h
      exact ⟨h.1.symm, h.2.symm⟩
    · intro ch h
      exact absurd h (by simp)
  · rw [if_neg hne]
    rw [not_ne_iff] at hne
    refine ⟨⟨fun h => absurd h (by simp), fun h => absurd hne h⟩, ?_, ?_⟩
    · intro cm dm h
      exact absurd h (by simp)
    · intro ch h
      simp only [PResult.ok.injEq] at h
      rw [← h]
      exact hne

/-- C4 witness: `badCrcRecord` declares CRC 1 while the computed CRC over
"RuSt" with empty payload is 3565422908, so parsing reports the mismatch. -/
theorem C4_witness :
    Chunk.try_from badCrcRecord
      = .err (Error.CrcMissMatch
          (checksum_ieee (ChunkType.bytesList rustCT ++ payloadField badCrcRecord))
          (declaredCrc badCrcRecord)) :=
  ((C4_crc_mismatch badCrcRecord rustCT (by decide) (by decide) (by decide)).1).mpr
    (by decide)

/-- C8: every buffer shorter than 16 bytes fails with `InputTooSmall`
carrying the buffer length (and never panics: an error value is returned);
a 16-byte buffer with declared length 0, a valid type tag and a declared
CRC equal to the CRC over the type bytes alone parses into a chunk with
empty data. -/
theorem C8_bounds :
    (∀ buf : List Nat, buf.length < 16 →
      Chunk.try_from buf = .err (Error.InputTooSmall buf.length))
    ∧ (∀ (buf : List Nat) (ct : ChunkType), buf.length = 16 →
        buf.take 4 = [0, 0, 0, 0] →
        ChunkType.try_from (typeField buf) = .ok ct →
        declaredCrc buf = checksum_ieee (ChunkType.bytesList ct) →
        Chunk.try_from buf
          = .ok { length := 0, chunk_type := ct, data := [],
                  crc := checksum_ieee (ChunkType.bytesList ct) }) := by
  constructor
  · intro buf h
    simp only [Chunk.try_from]
    rw [if_pos h]
  · intro buf ct hlen htake hct hcrc
    have hdl0 : declaredLen buf = 0 := by
      unfold declaredLen
      rw [htake]
      decide
    have hpf : payloadField buf = [] := by
      unfold payloadField
      rw [hdl0, List.take_zero]
    rw [try_from_anatomy buf ct (by omega) hct (by rw [hdl0, hlen]; norm_num), hpf,
      List.append_nil, if_neg (not_ne_iff.mpr hcrc.symm), hdl0]
    norm_num

/-- C8 witness: a 1-byte buffer fails with `InputTooSmall 1`; `minRecord`
parses into the empty-data chunk of type "RuSt". -/
theorem C8_witness :
    Chunk.try_from [0] = .err (Error.InputTooSmall 1) ∧
    Chunk.try_from minRecord
      = .ok { length := 0, chunk_type := rustCT, data := [],
              crc := checksum_ieee (ChunkType.bytesList rustCT) } :=
  ⟨C8_bounds.1 [0] (by decide),
   C8_bounds.2 minRecord rustCT (by decide) (by decide) (by decide) (by decide)⟩

/-- C10: parsing reads only the first `8 + declared length + 4` bytes:
appending arbitrary extra bytes to a successfully parsed buffer still
parses successfully into the identical chunk (same length, type, data and
crc). -/
theorem C10_append :
    ∀ (buf extra : List Nat) (c : Chunk), Chunk.try_from buf = .ok c →
      Chunk.try_from (buf ++ extra) = .ok c := by
  intro buf extra c h
  obtain ⟨h16, hdl, ct, hct, hcrc, hc⟩ := try_from_ok_inv h
  have hdlE : declaredLen (buf ++ extra) = declaredLen buf := by
    unfold declaredLen
    rw [List.take_append_of_le_length (by omega)]
  have htf : typeField (buf ++ extra) = typeField buf := by
    unfold typeField
    rw [List.drop_append_of_le_length (by omega),
      List.take_append_of_le_length (by simp; omega)]
  have hpf : payloadField (buf ++ extra) = payloadField buf := by
    unfold payloadField
    rw [hdlE, List.drop_append_of_le_length (by omega),
      List.take_append_of_le_length (by simp; omega)]
  have hdc : declaredCrc (buf ++ extra) = declaredCrc buf := by
    unfold declaredCrc
    rw [hdlE, List.drop_append_of_le_length (by omega),
      List.drop_append_of_le_length (by simp; omega),
      List.take_append_of_le_length (by simp; omega)]
  rw [try_from_anatomy (buf ++ extra) ct (by simp; omega) (by rw [htf]; exact hct)
      (by rw [hdlE]; simp only [List.length_append]; omega)]
  rw [hpf, hdc, if_neg (not_ne_iff.mpr hcrc), hdlE, ← hc]

/-- C10 witness: `minRecord` with three extra bytes appended parses into
the same chunk as `minRecord` itself. -/
theorem C10_witness :
    Chunk.try_from (minRecord ++ [1, 2, 3])
      = .ok { length := 0, chunk_type := rustCT, data := [], crc := 3565422908 } :=
  C10_append minRecord [1, 2, 3] _ (by decide)

/-- C9: for every buffer of bytes that parses successfully, flipping any
single bit (bit `k` of the byte at offset `i`) in the payload region
(offsets `8 ≤ i < 8 + declared length`) or in the declared CRC field
(offsets `8 + declared length ≤ i < 12 + declared length`) and parsing
again fails with `CrcMissMatch`. -/
theorem C9_tamper :
    ∀ (buf : List Nat) (c : Chunk), (∀ x ∈ buf, x < 256) →
    Chunk.try_from buf = .ok c →
    ∀ i k, k < 8 → 8 ≤ i → i < 12 + declaredLen buf →
    ∃ cm dm, Chunk.try_from (buf.set i (buf.getD i 0 ^^^ 2 ^ k))
      = .err (Error.CrcMissMatch cm dm) := by
  intro buf c hb h i k hk hi8 hi12
  obtain ⟨h16, hdl, ct, hct, hcrc, hc⟩ := try_from_ok_inv h
  have hib : i < buf.length := by omega
  have hblt : buf.getD i 0 < 256 := by
    rw [List.getD_eq_getElem _ _ hib]
    exact hb _ (List.getElem_mem _)
  have hb'lt : buf.getD i 0 ^^^ 2 ^ k < 256 := flip_lt hblt hk
  have hbne : buf.getD i 0 ^^^ 2 ^ k ≠ buf.getD i 0 := flip_ne _ _
  set b' := buf.getD i 0 ^^^ 2 ^ k with hb'def
  set buf' := buf.set i b' with hbufdef
  have hlen' : buf'.length = buf.length := by
    rw [hbufdef, List.length_set]
  have hdlE : declaredLen buf' = declaredLen buf := by
    unfold declaredLen
    rw [hbufdef, take_set_of_le (by omega)]
  have htfE : typeField buf' = typeField buf := by
    unfold typeField
    rw [hbufdef, List.drop_set, if_neg (by omega), take_set_of_le (by omega)]
  have hdrop8 : buf'.drop 8 = (buf.drop 8).set (i - 8) b' := by
    rw [hbufdef, List.drop_set, if_neg (by omega)]
  have hdata_len : (payloadField buf).length = declaredLen buf := by
    unfold payloadField
    simp only [List.length_take, List.length_drop]
    omega
  by_cases hpay : i < 8 + declaredLen buf
  · -- the flipped byte is in the payload: the recomputed CRC changes
    obtain ⟨m, rfl⟩ : ∃ m, i = 8 + m := ⟨i - 8, by omega⟩
    have hm8 : 8 + m - 8 = m := by omega
    rw [hm8] at hdrop8
    have him : m < (payloadField buf).length := by omega
    have hpfE : payloadField buf' = (payloadField buf).set m b' := by
      unfold payloadField
      rw [hdlE, hdrop8, List.set_take]
    have hdcE : declaredCrc buf' = declaredCrc buf := by
      unfold declaredCrc
      rw [hdlE, hdrop8, List.drop_set_of_lt _ _ (by omega)]
    have hb_eq : (payloadField buf).get ⟨m, him⟩ = buf.getD (8 + m) 0 := by
      rw [List.getD_eq_getElem _ _ hib, List.get_eq_getElem]
      unfold payloadField
      simp only [List.getElem_take, List.getElem_drop]
    obtain ⟨l1, l2, hdataeq, hl1len, hseteq⟩ := @List.exists_of_set _ m b' (payloadField buf) him
    have hcompne : checksum_ieee (ChunkType.bytesList ct ++ (payloadField buf).set m b')
        ≠ checksum_ieee (ChunkType.bytesList ct ++ payloadField buf) := by
      rw [hseteq]
      conv_rhs => rw [hdataeq]
      rw [← List.append_assoc, ← List.append_assoc]
      refine checksum_ne_of_byte_diff (ChunkType.bytesList ct ++ l1) l2 hb'lt ?_ ?_
      · rw [List.get_eq_getElem] at hb_eq
        rw [hb_eq]
        exact hblt
      · rw [List.get_eq_getElem] at hb_eq
        rw [hb_eq]
        exact hbne
    rw [try_from_anatomy buf' ct (by omega) (by rw [htfE]; exact hct)
        (by rw [hdlE, hlen']; omega)]
    rw [hpfE, hdcE, if_pos (by rw [← hcrc]; exact hcompne)]
    exact ⟨_, _, rfl⟩
  · -- the flipped byte is in the declared CRC field: the declared CRC changes
    have hpfE : payloadField buf' = payloadField buf := by
      unfold payloadField
      rw [hdlE, hdrop8, take_set_of_le (by omega)]
    set l := ((buf.drop 8).drop (declaredLen buf)).take 4 with hldef
    have hlen4 : l.length = 4 := by
      rw [hldef]
      simp only [List.length_take, List.length_drop]
      omega
    have hj4 : i - 8 - declaredLen buf < 4 := by omega
    have hdcE : declaredCrc buf' = u32_from_be (l.set (i - 8 - declaredLen buf) b') := by
      unfold declaredCrc
      rw [hdlE, hdrop8, List.drop_set, if_neg (by omega), List.set_take, hldef]
    have halll : ∀ x ∈ l, x < 256 := by
      intro x hx
      rw [hldef] at hx
      exact hb x
        (List.mem_of_mem_drop (List.mem_of_mem_drop (List.mem_of_mem_take hx)))
    have hjl : i - 8 - declaredLen buf < l.length := by omega
    have hgdl : l.getD (i - 8 - declaredLen buf) 0 = buf.getD i 0 := by
      rw [List.getD_eq_getElem _ _ hjl, List.getD_eq_getElem _ _ hib]
      simp only [hldef, List.getElem_take, List.getElem_drop]
      congr 1
      omega
    have hdc0 : declaredCrc buf = u32_from_be l := by
      rw [hldef]
      rfl
    have hdcne : u32_from_be (l.set (i - 8 - declaredLen buf) b') ≠ u32_from_be l :=
      u32_from_be_set_ne l _ hj4 hlen4 halll hb'lt (by rw [hgdl]; exact hbne)
    rw [try_from_anatomy buf' ct (by omega) (by rw [htfE]; exact hct)
        (by rw [hdlE, hlen']; omega)]
    rw [hpfE, hdcE, if_pos (by rw [hcrc, hdc0]; exact fun he => hdcne he.symm)]
    exact ⟨_, _, rfl⟩

/-- C9 witness: flipping bit 0 of the first declared-CRC byte of
`minRecord` makes reparsing fail with a CRC mismatch. -/
theorem C9_witness :
    ∃ cm dm, Chunk.try_from (minRecord.set 8 (minRecord.getD 8 0 ^^^ 2 ^ 0))
      = .err (Error.CrcMissMatch cm dm) :=
  C9_tamper minRecord
    { length := 0, chunk_type := rustCT, data := [], crc := 3565422908 }
    (by decide) (by decide) 8 0 (by decide) (by decide) (by decide)

end Pngne
